import Mathlib

/-!
Shallow embedding of the multi-class label-fusion routine of
`stanford_pipeline/convert_bids_to_nnunetv2_format.py` (`process_labels`),
together with the class registry (`MASKS_TO_LOAD`, `CLASS_MAPPING`) and the
per-mask rescaling step shared with
`stanford_pipeline/convert_bids_to_nnunet_format.py`.

Modelling choices:
- A raster (2-D 8-bit image) is a flattened `List Nat` of pixel values; all
  operations of the source are element-wise, so the 2-D shape is irrelevant.
- `np.round` rounds half to even on nonnegative values; `npRound v d` models
  `round(v / d)` exactly for natural `v, d`.
- The on-disk output artifact is the accumulator in the source; it is modelled
  as an explicit `Option Raster` threaded through the loop (`none` = the file
  does not exist).  `cv2.imread` of a missing file returns `None` and the
  subsequent fancy-indexing assignment would raise; this crash is modelled by
  `FuseError.readFailed`.  The failing `assert` on a missing mandatory mask is
  `FuseError.missingMandatory`.  Both errors carry the disk state at the time
  of failure, which models what remains on disk after the exception.
- Python string keys of `CLASS_MAPPING` and `MASKS_TO_LOAD` are represented by
  the inductive types `LabelClass` and `MaskName`.
-/

namespace StanfordPipeline

set_option maxRecDepth 8000

/-- Rounding `np.round(v / d)` for a natural pixel value `v` and positive divisor `d`:
rounding half to even, as NumPy does on nonnegative values. -/
def npRound (v d : Nat) : Nat :=
  let q := v / d
  let r := v % d
  if 2 * r < d then q
  else if d < 2 * r then q + 1
  else if q % 2 = 0 then q else q + 1

/-- The keys of the `CLASS_MAPPING` dict of the source. -/
inductive LabelClass
  | background
  | uaxon
  | myelin
  | axon
  | nuclei
  | process
deriving DecidableEq, Repr

/-- The dict `CLASS_MAPPING = {background: 0, uaxon: 1, myelin: 2, axon: 3, nuclei: 4, process: 5}`. -/
def CLASS_MAPPING : LabelClass → Nat
  | .background => 0
  | .uaxon => 1
  | .myelin => 2
  | .axon => 3
  | .nuclei => 4
  | .process => 5

/-- The mask names iterated by the fusion loop (entries of `MASKS_TO_LOAD`). -/
inductive MaskName
  | uaxon
  | axonmyelin
  | nuclei
  | process
deriving DecidableEq, Repr

/-- The list `MASKS_TO_LOAD = ["uaxon", "axonmyelin", "nuclei", "process"]`: the fixed
processing order of the fusion loop. -/
def MASKS_TO_LOAD : List MaskName := [.uaxon, .axonmyelin, .nuclei, .process]

/-- Lookup `CLASS_MAPPING[mask_name]` for the single-class masks (`uaxon`, `nuclei`,
`process`); `axonmyelin` is handled separately in the source. -/
def maskLabelClass : MaskName → LabelClass
  | .uaxon => .uaxon
  | .axonmyelin => .background
  | .nuclei => .nuclei
  | .process => .process

/-- The divisor `rescaling_factor = 127 if mask_name == "axonmyelin" else 255`. -/
def rescalingFactor : MaskName → Nat
  | .axonmyelin => 127
  | _ => 255

/-- A flattened 2-D raster of pixel values. -/
abbrev Raster := List Nat

/-- Rescaling `np.round(raw / factor)` applied element-wise:
`label = np.round(cv2.imread(...) / rescaling_factor)`. -/
def rescale (factor : Nat) (raw : Raster) : Raster :=
  raw.map fun v => npRound v factor

/-- NumPy boolean-mask assignment `existing[label == lvl] = out_id`. -/
def setWhere (existing label : Raster) (lvl out_id : Nat) : Raster :=
  List.zipWith (fun e l => if l = lvl then out_id else e) existing label

/-- The merge body of the fusion loop: for `axonmyelin`,
`existing[label == 1] = CLASS_MAPPING["myelin"]; existing[label == 2] = CLASS_MAPPING["axon"]`;
for any other mask, `existing[label == 1] = CLASS_MAPPING[mask_name]`. -/
def mergeMask (m : MaskName) (existing label : Raster) : Raster :=
  match m with
  | .axonmyelin =>
      setWhere (setWhere existing label 1 (CLASS_MAPPING .myelin)) label 2 (CLASS_MAPPING .axon)
  | _ => setWhere existing label 1 (CLASS_MAPPING (maskLabelClass m))

/-- How one iteration of the fusion loop can abort: the failing `assert` on a
missing mandatory mask, or `cv2.imread` of an absent output artifact returning
`None` (the subsequent indexed assignment raises). -/
inductive FuseError
  | missingMandatory (m : MaskName)
  | readFailed (m : MaskName)
deriving DecidableEq, Repr

/-- One iteration of the `for mask_name in MASKS_TO_LOAD` loop of
`process_labels`.  `masks` gives the raw mask file contents per class (`none`
= file absent), `disk` is the output artifact (`none` = not yet written).
Errors carry the disk state left behind by the aborted iteration. -/
def processMask (masks : MaskName → Option Raster) (disk : Option Raster)
    (m : MaskName) : Except (FuseError × Option Raster) (Option Raster) :=
  match masks m with
  | none =>
      if m = .uaxon ∨ m = .axonmyelin then
        Except.error (FuseError.missingMandatory m, disk)
      else
        Except.ok disk
  | some raw =>
      let label := rescale (rescalingFactor m) raw
      if m = .uaxon ∧ disk = none then
        Except.ok (some label)
      else
        match disk with
        | none => Except.error (FuseError.readFailed m, disk)
        | some existing => Except.ok (some (mergeMask m existing label))

/-- The fusion loop over an explicit order of mask names. -/
def processLabelsOrder (masks : MaskName → Option Raster) (order : List MaskName)
    (disk : Option Raster) : Except (FuseError × Option Raster) (Option Raster) :=
  match order with
  | [] => Except.ok disk
  | m :: rest =>
      match processMask masks disk m with
      | Except.error e => Except.error e
      | Except.ok d => processLabelsOrder masks rest d

/-- The function `process_labels` restricted to one sample: the full fusion loop in the
hard-coded `MASKS_TO_LOAD` order, starting from the given on-disk state. -/
def process_labels (masks : MaskName → Option Raster) (disk : Option Raster) :
    Except (FuseError × Option Raster) (Option Raster) :=
  processLabelsOrder masks MASKS_TO_LOAD disk

/-- The table `label_type_to_divisor = {"axonmyelin": 127, "myelin": 255, "uaxon": 255}`
from the older `convert_bids_to_nnunet_format.py` script (`none` models the
`KeyError` on any other key). -/
def label_type_to_divisor (label_type : String) : Option Nat :=
  if label_type = "axonmyelin" then some 127
  else if label_type = "myelin" then some 255
  else if label_type = "uaxon" then some 255
  else none

/-- The value the merge body writes at a pixel whose rescaled level is `lvl`
(0 when the pixel is left untouched). -/
def contribPixel (m : MaskName) (lvl : Nat) : Nat :=
  match m with
  | .axonmyelin =>
      if lvl = 1 then CLASS_MAPPING .myelin else if lvl = 2 then CLASS_MAPPING .axon else 0
  | _ => if lvl = 1 then CLASS_MAPPING (maskLabelClass m) else 0

/-- The rescaled level of mask `m` at pixel `i` (0 when the file is absent). -/
def levelAt (masks : MaskName → Option Raster) (m : MaskName) (i : Nat) : Nat :=
  match masks m with
  | none => 0
  | some raw => npRound (raw.getD i 0) (rescalingFactor m)

/-- The value mask `m` would write at pixel `i` (0 when absent or untouched). -/
def contribAt (masks : MaskName → Option Raster) (m : MaskName) (i : Nat) : Nat :=
  contribPixel m (levelAt masks m i)

/-- Sequential last-writer-wins overlay of the contributions of `ord` at pixel
`i`, starting from value `v`. -/
def overlayFold (masks : MaskName → Option Raster) (ord : List MaskName) (i : Nat)
    (v : Nat) : Nat :=
  ord.foldl (fun acc m => if contribAt masks m i = 0 then acc else contribAt masks m i) v

/-- Presence discipline for a fusion run: every mask in `ord` is either
present with `n` pixels, or absent and optional. -/
def PresentOrOptional (masks : MaskName → Option Raster) (n : Nat)
    (ord : List MaskName) : Prop :=
  ∀ m ∈ ord, (∃ raw, masks m = some raw ∧ raw.length = n) ∨
    (masks m = none ∧ m ≠ .uaxon ∧ m ≠ .axonmyelin)

/-- Eight-bit grayscale input: every pixel intensity is at most 255. -/
def EightBit (r : Raster) : Prop := ∀ v ∈ r, v ≤ 255

/-- The processing rank of a class: its index in `MASKS_TO_LOAD`. -/
def rank : MaskName → Nat
  | .uaxon => 0
  | .axonmyelin => 1
  | .nuclei => 2
  | .process => 3

/-- Spec-side definition: the output id a class writes for a claimed (nonzero)
rescaled level — `1` for `uaxon`, `2`/`3` for the two `axonmyelin` levels,
`4` for `nuclei`, `5` for `process`. -/
def claimValue (m : MaskName) (lvl : Nat) : Nat :=
  match m with
  | .axonmyelin => if lvl = 2 then CLASS_MAPPING .axon else CLASS_MAPPING .myelin
  | _ => CLASS_MAPPING (maskLabelClass m)

/-- The `(class, rescaled level at pixel i)` pairs of the present masks among
`order`, in processing order. -/
def presentClaims (masks : MaskName → Option Raster) (order : List MaskName)
    (i : Nat) : List (MaskName × Nat) :=
  order.filterMap fun m => (masks m).map fun raw =>
    (m, npRound (raw.getD i 0) (rescalingFactor m))

/-- Spec-side definition of the fusion invariant: a pixel equals the output id
of the last-processed class whose rescaled mask was non-zero at that pixel, or
0 if no processed mask claimed it. -/
def lastClaimPixel (claims : List (MaskName × Nat)) : Nat :=
  match (claims.filter fun c => c.2 != 0).getLast? with
  | none => 0
  | some c => claimValue c.1 c.2

/-- Concrete `uaxon` raw mask of the spec's 10×10 scenario: intensity 255 at
12 pixels (indices 0–11). -/
def uaxonC4 : Raster := (List.range 100).map fun i => if i < 12 then 255 else 0

/-- Concrete `axonmyelin` raw mask of the spec's 10×10 scenario: intensity 127
at 5 pixels (0–2 overlap `uaxon`; 20, 21 do not) and intensity 254 at 3 pixels
(3, 4 overlap `uaxon`; 22 does not). -/
def axonmyelinC4 : Raster := (List.range 100).map fun i =>
  if i < 3 then 127 else if i < 5 then 254
  else if i = 20 ∨ i = 21 then 127 else if i = 22 then 254 else 0

/-- The spec's 10×10 scenario: `nuclei` and `process` files absent. -/
def masksC4 : MaskName → Option Raster
  | .uaxon => some uaxonC4
  | .axonmyelin => some axonmyelinC4
  | _ => none

/-- The expected fused raster of the spec's 10×10 scenario. -/
def rC4 : Raster := (List.range 100).map fun i =>
  if i < 3 then 2 else if i < 5 then 3 else if i < 12 then 1
  else if i = 20 ∨ i = 21 then 2 else if i = 22 then 3 else 0

/-- Sample with the mandatory `axonmyelin` mask absent (and `uaxon` present). -/
def masksC2 : MaskName → Option Raster
  | .uaxon => some [255, 0]
  | _ => none

/-- Sample whose raw `axonmyelin` mask holds intensity 190, not a multiple of
127. -/
def masksC3 : MaskName → Option Raster
  | .uaxon => some [0]
  | .axonmyelin => some [190]
  | _ => none

/-- One-pixel sample on which `uaxon` and `axonmyelin` overlap: fusing in a
different order yields a different raster. -/
def masksC7 : MaskName → Option Raster
  | .uaxon => some [255]
  | .axonmyelin => some [127]
  | _ => some [0]

/-- Four-pixel sample whose four masks claim pairwise disjoint pixels. -/
def masksDisjoint : MaskName → Option Raster
  | .uaxon => some [255, 0, 0, 0]
  | .axonmyelin => some [0, 254, 0, 0]
  | .nuclei => some [0, 0, 255, 0]
  | .process => some [0, 0, 0, 255]

instance {α β : Type} [DecidableEq α] [DecidableEq β] : DecidableEq (Except α β) :=
  fun a b =>
    match a, b with
    | .ok x, .ok y => decidable_of_iff (x = y) (by simp)
    | .error x, .error y => decidable_of_iff (x = y) (by simp)
    | .ok _, .error _ => isFalse (by simp)
    | .error _, .ok _ => isFalse (by simp)

theorem rescale_length (factor : Nat) (raw : Raster) :
    (rescale factor raw).length = raw.length := by
  simp [rescale]

theorem rescale_getD (factor : Nat) (raw : Raster) (i : Nat) (hi : i < raw.length) :
    (rescale factor raw).getD i 0 = npRound (raw.getD i 0) factor := by
  rw [List.getD_eq_getElem _ _ (by simpa [rescale_length] using hi),
    List.getD_eq_getElem _ _ hi]
  simp [rescale]

theorem setWhere_length (existing label : Raster) (lvl out_id : Nat)
    (h : label.length = existing.length) :
    (setWhere existing label lvl out_id).length = existing.length := by
  simp [setWhere, h]

theorem setWhere_getD (existing label : Raster) (lvl out_id : Nat)
    (h : label.length = existing.length) (i : Nat) (hi : i < existing.length) :
    (setWhere existing label lvl out_id).getD i 0 =
      if label.getD i 0 = lvl then out_id else existing.getD i 0 := by
  rw [List.getD_eq_getElem _ _ (by simpa [setWhere_length _ _ _ _ h] using hi),
    List.getD_eq_getElem _ _ hi, List.getD_eq_getElem _ _ (by omega : i < label.length)]
  simp [setWhere]

theorem mergeMask_length (m : MaskName) (existing label : Raster)
    (h : label.length = existing.length) :
    (mergeMask m existing label).length = existing.length := by
  cases m <;>
    simp [mergeMask, setWhere_length _ _ _ _ h,
      setWhere_length _ _ _ _ (h.trans (setWhere_length _ _ _ _ h).symm)]

theorem mergeMask_getD (m : MaskName) (existing label : Raster)
    (h : label.length = existing.length) (i : Nat) (hi : i < existing.length) :
    (mergeMask m existing label).getD i 0 =
      if contribPixel m (label.getD i 0) = 0 then existing.getD i 0
      else contribPixel m (label.getD i 0) := by
  cases m
  case axonmyelin =>
    have hlen : (setWhere existing label 1 (CLASS_MAPPING .myelin)).length = existing.length :=
      setWhere_length _ _ _ _ h
    rw [show mergeMask .axonmyelin existing label =
        setWhere (setWhere existing label 1 (CLASS_MAPPING .myelin)) label 2
          (CLASS_MAPPING .axon) from rfl,
      setWhere_getD _ _ _ _ (h.trans hlen.symm) i (hlen ▸ hi),
      setWhere_getD _ _ _ _ h i hi]
    simp only [contribPixel, CLASS_MAPPING]
    rcases Nat.decEq (label.getD i 0) 1 with h1 | h1 <;>
      rcases Nat.decEq (label.getD i 0) 2 with h2 | h2 <;>
      simp_all
  all_goals
    simp only [mergeMask]
    rw [setWhere_getD _ _ _ _ h i hi]
    simp only [contribPixel, CLASS_MAPPING, maskLabelClass]
    rcases Nat.decEq (label.getD i 0) 1 with h1 | h1 <;> simp_all

theorem processMask_present (masks : MaskName → Option Raster) (d raw : Raster)
    (m : MaskName) (hm : masks m = some raw) :
    processMask masks (some d) m =
      Except.ok (some (mergeMask m d (rescale (rescalingFactor m) raw))) := by
  simp [processMask, hm]

theorem processMask_skip (masks : MaskName → Option Raster) (disk : Option Raster)
    (m : MaskName) (hm : masks m = none) (hu : m ≠ .uaxon) (ha : m ≠ .axonmyelin) :
    processMask masks disk m = Except.ok disk := by
  simp [processMask, hm, hu, ha]

/-- Master run lemma: starting from an existing artifact of `n` pixels, the
loop never fails and computes, at every pixel, the sequential last-writer-wins
overlay of the contributions of the processed masks. -/
theorem processLabelsOrder_overlay (masks : MaskName → Option Raster) (n : Nat)
    (ord : List MaskName) (hpres : PresentOrOptional masks n ord)
    (d : Raster) (hd : d.length = n) :
    ∃ r, processLabelsOrder masks ord (some d) = Except.ok (some r) ∧ r.length = n ∧
      ∀ i, i < n → r.getD i 0 = overlayFold masks ord i (d.getD i 0) := by
  induction ord generalizing d with
  | nil => exact ⟨d, rfl, hd, fun i _ => rfl⟩
  | cons m rest ih =>
    have hrest : PresentOrOptional masks n rest :=
      fun m' hm' => hpres m' (List.mem_cons_of_mem _ hm')
    rcases hpres m (List.mem_cons_self ..) with ⟨raw, hraw, hlen⟩ | ⟨hnone, hu, ha⟩
    · have hlen2 : (rescale (rescalingFactor m) raw).length = d.length := by
        rw [rescale_length, hlen, hd]
      have hdlen : (mergeMask m d (rescale (rescalingFactor m) raw)).length = n := by
        rw [mergeMask_length _ _ _ hlen2, hd]
      obtain ⟨r, hr, hrlen, hpix⟩ := ih hrest _ hdlen
      refine ⟨r, ?_, hrlen, fun i hi => ?_⟩
      · simpa [processLabelsOrder, processMask_present masks d raw m hraw] using hr
      · rw [hpix i hi]
        have hstepPix : (mergeMask m d (rescale (rescalingFactor m) raw)).getD i 0 =
            if contribAt masks m i = 0 then d.getD i 0 else contribAt masks m i := by
          rw [mergeMask_getD _ _ _ hlen2 i (hd ▸ hi),
            rescale_getD _ _ _ (hlen ▸ hi : i < raw.length)]
          simp [contribAt, levelAt, hraw]
        rw [hstepPix]
        simp [overlayFold]
    · obtain ⟨r, hr, hrlen, hpix⟩ := ih hrest d hd
      refine ⟨r, ?_, hrlen, fun i hi => ?_⟩
      · simpa [processLabelsOrder, processMask_skip masks (some d) m hnone hu ha] using hr
      · rw [hpix i hi]
        have hc : contribAt masks m i = 0 := by
          cases m <;> simp [contribAt, levelAt, hnone, contribPixel]
        simp [overlayFold, hc]

theorem npRound_255_mem : ∀ v < 256, npRound v 255 = 0 ∨ npRound v 255 = 1 := by decide

theorem npRound_127_mem :
    ∀ v < 256, npRound v 127 = 0 ∨ npRound v 127 = 1 ∨ npRound v 127 = 2 := by decide

theorem getD_le_255 (r : Raster) (h : EightBit r) (i : Nat) : r.getD i 0 ≤ 255 := by
  rcases Nat.lt_or_ge i r.length with hi | hi
  · rw [List.getD_eq_getElem _ _ hi]
    exact h _ (List.getElem_mem hi)
  · rw [List.getD_eq_default _ _ hi]
    omega

theorem levelAt_le_two (masks : MaskName → Option Raster) (m : MaskName) (raw : Raster)
    (hm : masks m = some raw) (h8 : EightBit raw) (i : Nat) :
    levelAt masks m i ≤ 2 := by
  have hv : raw.getD i 0 ≤ 255 := getD_le_255 raw h8 i
  have h127 := npRound_127_mem (raw.getD i 0) (by omega)
  have h255 := npRound_255_mem (raw.getD i 0) (by omega)
  cases m <;> simp only [levelAt, hm, rescalingFactor] <;> omega

theorem levelAt_le_one (masks : MaskName → Option Raster) (m : MaskName) (raw : Raster)
    (hm : masks m = some raw) (h8 : EightBit raw) (hne : m ≠ .axonmyelin) (i : Nat) :
    levelAt masks m i ≤ 1 := by
  have hv : raw.getD i 0 ≤ 255 := getD_le_255 raw h8 i
  have h255 := npRound_255_mem (raw.getD i 0) (by omega)
  cases m <;> simp only [levelAt, hm, rescalingFactor] <;> first | omega | exact absurd rfl hne

theorem contribPixel_le (m : MaskName) (lvl : Nat) : contribPixel m lvl ≤ 5 := by
  cases m <;> simp only [contribPixel, CLASS_MAPPING, maskLabelClass] <;>
    (repeat' split) <;> omega

theorem overlayFold_le (masks : MaskName → Option Raster) (ord : List MaskName)
    (i v : Nat) (hv : v ≤ 5) : overlayFold masks ord i v ≤ 5 := by
  induction ord generalizing v with
  | nil => exact hv
  | cons m rest ih =>
    have hstep : (if contribAt masks m i = 0 then v else contribAt masks m i) ≤ 5 := by
      split
      · exact hv
      · exact contribPixel_le m _
    simpa [overlayFold] using ih _ hstep

theorem processLabelsOrder_none_cons (masks : MaskName → Option Raster) (u : Raster)
    (rest : List MaskName) (hu : masks .uaxon = some u) :
    processLabelsOrder masks (.uaxon :: rest) none =
      processLabelsOrder masks rest (some (rescale 255 u)) := by
  simp [processLabelsOrder, processMask, hu, rescalingFactor]

/-- Fresh-run characterization for any `uaxon`-first order: starting with no
output artifact, with a present 8-bit `uaxon` mask and every other mask
present (with `n` pixels) or absent-but-optional, fusion completes and every
pixel of the final raster is the last-writer-wins overlay of the processed
classes' contributions over background 0. -/
theorem processLabelsOrder_fresh (masks : MaskName → Option Raster) (n : Nat)
    (rest : List MaskName) (hpres : PresentOrOptional masks n (.uaxon :: rest))
    (h8 : ∀ raw, masks .uaxon = some raw → EightBit raw) :
    ∃ r, processLabelsOrder masks (.uaxon :: rest) none = Except.ok (some r) ∧
      r.length = n ∧
      ∀ i, i < n → r.getD i 0 = overlayFold masks (.uaxon :: rest) i 0 := by
  obtain ⟨u, hu, hulen⟩ :=
    (hpres .uaxon (List.mem_cons_self ..)).resolve_right (by simp)
  have htail : PresentOrOptional masks n rest :=
    fun m hm => hpres m (List.mem_cons_of_mem _ hm)
  obtain ⟨r, hr, hrlen, hpix⟩ :=
    processLabelsOrder_overlay masks n rest htail
      (rescale 255 u) (by rw [rescale_length, hulen])
  refine ⟨r, by rw [processLabelsOrder_none_cons masks u rest hu]; exact hr, hrlen,
    fun i hi => ?_⟩
  rw [hpix i hi, rescale_getD _ _ _ (hulen ▸ hi)]
  have hlvl : levelAt masks .uaxon i = npRound (u.getD i 0) 255 := by
    simp [levelAt, hu, rescalingFactor]
  have hle : npRound (u.getD i 0) 255 ≤ 1 := by
    rcases npRound_255_mem (u.getD i 0) (by have := getD_le_255 u (h8 u hu) i; omega) with
      h | h <;> omega
  have hacc : npRound (u.getD i 0) 255 =
      if contribAt masks .uaxon i = 0 then 0 else contribAt masks .uaxon i := by
    rw [contribAt, hlvl]
    interval_cases h : npRound (u.getD i 0) 255 <;>
      simp [contribPixel, CLASS_MAPPING, maskLabelClass]
  rw [hacc]
  simp [overlayFold]

/-- Fresh-run characterization of the full `process_labels` loop. -/
theorem process_labels_overlay (masks : MaskName → Option Raster) (n : Nat)
    (hpres : PresentOrOptional masks n MASKS_TO_LOAD)
    (h8 : ∀ raw, masks .uaxon = some raw → EightBit raw) :
    ∃ r, process_labels masks none = Except.ok (some r) ∧ r.length = n ∧
      ∀ i, i < n → r.getD i 0 = overlayFold masks MASKS_TO_LOAD i 0 :=
  processLabelsOrder_fresh masks n [.axonmyelin, .nuclei, .process] hpres h8

theorem npRound_zero (d : Nat) : npRound 0 d = 0 := by
  unfold npRound
  simp only [Nat.zero_div, Nat.zero_mod, Nat.mul_zero]
  split
  · rfl
  · split
    · omega
    · simp

theorem claimValue_ne_zero (m : MaskName) (lvl : Nat) : claimValue m lvl ≠ 0 := by
  cases m <;> simp only [claimValue, CLASS_MAPPING, maskLabelClass] <;>
    (repeat' split) <;> omega

theorem contribAt_claim (masks : MaskName → Option Raster) (m : MaskName) (i : Nat)
    (h2 : levelAt masks m i ≤ 2) (h1 : m ≠ .axonmyelin → levelAt masks m i ≤ 1) :
    contribAt masks m i =
      if levelAt masks m i = 0 then 0 else claimValue m (levelAt masks m i) := by
  rw [contribAt]
  cases m
  case axonmyelin =>
    interval_cases h : levelAt masks .axonmyelin i <;>
      simp [contribPixel, claimValue, CLASS_MAPPING]
  all_goals
    have h1' := h1 (by simp)
    interval_cases h : levelAt masks _ i <;>
      simp [contribPixel, claimValue, CLASS_MAPPING, maskLabelClass]

theorem overlayFold_append (masks : MaskName → Option Raster) (l₁ l₂ : List MaskName)
    (i v : Nat) :
    overlayFold masks (l₁ ++ l₂) i v = overlayFold masks l₂ i (overlayFold masks l₁ i v) := by
  simp [overlayFold, List.foldl_append]

theorem presentClaims_append (masks : MaskName → Option Raster) (l₁ l₂ : List MaskName)
    (i : Nat) :
    presentClaims masks (l₁ ++ l₂) i =
      presentClaims masks l₁ i ++ presentClaims masks l₂ i := by
  simp [presentClaims]

theorem lastClaimPixel_append (cs : List (MaskName × Nat)) (m : MaskName) (lvl : Nat) :
    lastClaimPixel (cs ++ [(m, lvl)]) =
      if lvl = 0 then lastClaimPixel cs else claimValue m lvl := by
  by_cases h : lvl = 0
  · simp [lastClaimPixel, List.filter_append, h]
  · simp [lastClaimPixel, List.filter_append, h, List.getLast?_concat]

/-- Bridge between the implementation's sequential overwrite and the spec's
"last class whose rescaled mask was non-zero" reading, for levels within the
classes' level sets. -/
theorem overlayFold_eq_lastClaimPixel (masks : MaskName → Option Raster) (i : Nat)
    (ord : List MaskName)
    (hb : ∀ m ∈ ord, levelAt masks m i ≤ 2 ∧ (m ≠ .axonmyelin → levelAt masks m i ≤ 1)) :
    overlayFold masks ord i 0 = lastClaimPixel (presentClaims masks ord i) := by
  induction ord using List.reverseRecOn with
  | nil => simp [overlayFold, presentClaims, lastClaimPixel]
  | append_singleton l m ih =>
    have hbl : ∀ m' ∈ l, levelAt masks m' i ≤ 2 ∧ (m' ≠ .axonmyelin → levelAt masks m' i ≤ 1) :=
      fun m' hm' => hb m' (by simp [hm'])
    have hm : m ∈ l ++ [m] := by simp
    rw [overlayFold_append, presentClaims_append, ih hbl]
    cases hmask : masks m with
    | none =>
      have hc : contribAt masks m i = 0 := by
        cases m <;> simp [contribAt, levelAt, hmask, contribPixel]
      simp [overlayFold, hc, presentClaims, hmask]
    | some raw =>
      have hclaims : presentClaims masks [m] i = [(m, levelAt masks m i)] := by
        simp [presentClaims, hmask, levelAt]
      rw [hclaims, lastClaimPixel_append]
      have hcontrib := contribAt_claim masks m i (hb m hm).1 (hb m hm).2
      by_cases hz : levelAt masks m i = 0 <;>
        simp [overlayFold, hcontrib, hz, claimValue_ne_zero]

theorem levelAt_bounds (masks : MaskName → Option Raster) (m : MaskName) (i : Nat)
    (h8 : ∀ raw, masks m = some raw → EightBit raw) :
    levelAt masks m i ≤ 2 ∧ (m ≠ .axonmyelin → levelAt masks m i ≤ 1) := by
  cases hmask : masks m with
  | none => simp [levelAt, hmask]
  | some raw =>
    exact ⟨levelAt_le_two _ _ _ hmask (h8 raw hmask) i,
      fun hne => levelAt_le_one _ _ _ hmask (h8 raw hmask) hne i⟩

theorem contribPixel_class (m : MaskName) (lvl : Nat) :
    contribPixel m lvl = 0 ∨
    (m = .uaxon ∧ contribPixel m lvl = 1) ∨
    (m = .axonmyelin ∧ (contribPixel m lvl = 2 ∨ contribPixel m lvl = 3)) ∨
    (m = .nuclei ∧ contribPixel m lvl = 4) ∨
    (m = .process ∧ contribPixel m lvl = 5) := by
  cases m <;> simp only [contribPixel, CLASS_MAPPING, maskLabelClass] <;>
    (repeat' split) <;> simp

theorem overlayFold_ne (masks : MaskName → Option Raster) (ord : List MaskName)
    (i v t : Nat) (hv : v ≠ t) (h : ∀ m ∈ ord, contribAt masks m i ≠ t) :
    overlayFold masks ord i v ≠ t := by
  induction ord generalizing v with
  | nil => exact hv
  | cons m rest ih =>
    have hstep : (if contribAt masks m i = 0 then v else contribAt masks m i) ≠ t := by
      split
      · exact hv
      · exact h m (List.mem_cons_self ..)
    simpa [overlayFold] using ih _ hstep (fun m' hm' => h m' (List.mem_cons_of_mem _ hm'))

theorem overlayFold_const (masks : MaskName → Option Raster) (ord : List MaskName)
    (i v : Nat) (h : ∀ m ∈ ord, contribAt masks m i = 0) :
    overlayFold masks ord i v = v := by
  induction ord with
  | nil => rfl
  | cons m rest ih =>
    have hm := h m (List.mem_cons_self ..)
    simpa [overlayFold, hm] using ih (fun m' hm' => h m' (List.mem_cons_of_mem _ hm'))

/-- On pairwise contribution-disjoint masks, the overlay over background 0
equals the unique claiming class's contribution, whatever the order. -/
theorem overlayFold_disjoint (masks : MaskName → Option Raster) (ord : List MaskName)
    (i : Nat) (hnd : ord.Nodup)
    (hdisj : ∀ m₁ m₂ : MaskName, m₁ ≠ m₂ →
      contribAt masks m₁ i = 0 ∨ contribAt masks m₂ i = 0)
    (m : MaskName) (hm : m ∈ ord) (hc : contribAt masks m i ≠ 0) :
    overlayFold masks ord i 0 = contribAt masks m i := by
  induction ord with
  | nil => cases hm
  | cons m₀ rest ih =>
    obtain ⟨hnotmem, hndrest⟩ := List.nodup_cons.mp hnd
    rcases List.mem_cons.mp hm with rfl | hmr
    · have hrest0 : ∀ m' ∈ rest, contribAt masks m' i = 0 := fun m' hm' =>
        (hdisj m m' fun he => hnotmem (he ▸ hm')).resolve_left hc
      have hfold : overlayFold masks (m :: rest) i 0 =
          overlayFold masks rest i (contribAt masks m i) := by
        simp [overlayFold, hc]
      rw [hfold, overlayFold_const _ _ _ _ hrest0]
    · have hne : m₀ ≠ m := fun he => hnotmem (he ▸ hmr)
      have hc₀ : contribAt masks m₀ i = 0 := (hdisj m₀ m hne).resolve_right hc
      have hfold : overlayFold masks (m₀ :: rest) i 0 = overlayFold masks rest i 0 := by
        simp [overlayFold, hc₀]
      rw [hfold]
      exact ih hndrest hmr

/-- On a pixel claimed by two classes, the fused value is never the
earlier-ranked class's output id. -/
theorem overlayFold_ne_earlier (masks : MaskName → Option Raster) (i : Nat)
    (hb : ∀ m, levelAt masks m i ≤ 2 ∧ (m ≠ .axonmyelin → levelAt masks m i ≤ 1))
    (m₁ m₂ : MaskName) (hr : rank m₁ < rank m₂)
    (h₁ : levelAt masks m₁ i ≠ 0) (h₂ : levelAt masks m₂ i ≠ 0) :
    overlayFold masks MASKS_TO_LOAD i 0 ≠ claimValue m₁ (levelAt masks m₁ i) := by
  have hA : levelAt masks .uaxon i ≤ 1 := (hb .uaxon).2 (by simp)
  have hB : levelAt masks .axonmyelin i ≤ 2 := (hb .axonmyelin).1
  have hC : levelAt masks .nuclei i ≤ 1 := (hb .nuclei).2 (by simp)
  have hD : levelAt masks .process i ≤ 1 := (hb .process).2 (by simp)
  simp only [overlayFold, MASKS_TO_LOAD, List.foldl_cons, List.foldl_nil, contribAt]
  cases m₁ <;> cases m₂ <;> simp only [rank] at hr <;> try omega
  all_goals
    interval_cases hvA : levelAt masks MaskName.uaxon i <;>
    interval_cases hvB : levelAt masks MaskName.axonmyelin i <;>
    interval_cases hvC : levelAt masks MaskName.nuclei i <;>
    interval_cases hvD : levelAt masks MaskName.process i <;>
    simp_all [contribPixel, claimValue, CLASS_MAPPING, maskLabelClass]

theorem contribPixel_zero (m : MaskName) : contribPixel m 0 = 0 := by
  cases m <;> simp [contribPixel]

theorem npRound_of_dvd (v d : Nat) (hd : 0 < d) (hdvd : d ∣ v) :
    npRound v d = v / d := by
  have hr : v % d = 0 := Nat.mod_eq_zero_of_dvd hdvd
  unfold npRound
  simp [hr, hd]

theorem levelAt_out_of_range (masks : MaskName → Option Raster) (m : MaskName) (i : Nat)
    (h : ∀ raw, masks m = some raw → raw.length ≤ i) : levelAt masks m i = 0 := by
  cases hm : masks m with
  | none => simp [levelAt, hm]
  | some raw =>
    have h0 : raw.getD i 0 = 0 := List.getD_eq_default _ _ (h raw hm)
    simp only [levelAt, hm, h0, npRound_zero]

theorem getD_replicate_zero (n i : Nat) : (List.replicate n 0).getD i 0 = 0 := by
  rcases Nat.lt_or_ge i n with hi | hi
  · rw [List.getD_eq_getElem _ _ (by simpa using hi)]
    exact List.getElem_replicate ..
  · exact List.getD_eq_default _ _ (by simpa using hi)

/-- A fresh `uaxon`-first run realizes the spec's last-claimant reading at
every pixel. -/
theorem fresh_run_lastClaim (masks : MaskName → Option Raster) (n : Nat)
    (rest : List MaskName) (hpres : PresentOrOptional masks n (.uaxon :: rest))
    (h8 : ∀ m raw, masks m = some raw → EightBit raw) :
    ∃ r, processLabelsOrder masks (.uaxon :: rest) none = Except.ok (some r) ∧
      r.length = n ∧
      ∀ i, i < n →
        r.getD i 0 = lastClaimPixel (presentClaims masks (.uaxon :: rest) i) := by
  obtain ⟨r, hr, hlen, hpix⟩ := processLabelsOrder_fresh masks n rest hpres (h8 .uaxon)
  refine ⟨r, hr, hlen, fun i hi => ?_⟩
  rw [hpix i hi]
  exact overlayFold_eq_lastClaimPixel masks i _ (fun m _ => levelAt_bounds masks m i (h8 m))

/-- C2 counterexample: with `uaxon` present and the mandatory `axonmyelin`
mask absent, fusion fails — but a partial output artifact (the binarized
`uaxon` raster) does exist afterwards, contradicting the claim that no output
artifact, not even a partial one, exists. -/
theorem c2_counterexample :
    process_labels masksC2 none =
      Except.error (FuseError.missingMandatory .axonmyelin, some [1, 0]) ∧
    some [1, 0] ≠ (none : Option Raster) := by decide

/-- C2 (amended): a missing `uaxon` mask fails with no artifact written; a
missing `axonmyelin` mask fails after the partial `uaxon` artifact was already
written, so a partial artifact does exist; a missing `nuclei` (resp.
`process`) mask is skipped and the completed raster holds no pixel 4
(resp. 5). -/
theorem c2_mandatory_enforcement (masks : MaskName → Option Raster) (n : Nat) :
    (masks .uaxon = none →
      process_labels masks none =
        Except.error (FuseError.missingMandatory .uaxon, none)) ∧
    (∀ u, masks .uaxon = some u → masks .axonmyelin = none →
      process_labels masks none =
        Except.error (FuseError.missingMandatory .axonmyelin, some (rescale 255 u))) ∧
    (PresentOrOptional masks n MASKS_TO_LOAD →
      (∀ m raw, masks m = some raw → EightBit raw) →
      ∃ r, process_labels masks none = Except.ok (some r) ∧ r.length = n ∧
        (masks .nuclei = none → ∀ i, r.getD i 0 ≠ 4) ∧
        (masks .process = none → ∀ i, r.getD i 0 ≠ 5)) := by
  refine ⟨fun h => ?_, fun u hu ham => ?_, fun hpres h8 => ?_⟩
  · simp [process_labels, MASKS_TO_LOAD, processLabelsOrder, processMask, h]
  · simp [process_labels, MASKS_TO_LOAD, processLabelsOrder, processMask, hu, ham,
      rescalingFactor]
  · obtain ⟨r, hr, hlen, hpix⟩ := process_labels_overlay masks n hpres (h8 .uaxon)
    refine ⟨r, hr, hlen, fun hnone i => ?_, fun hnone i => ?_⟩
    · rcases Nat.lt_or_ge i n with hi | hi
      · rw [hpix i hi]
        refine overlayFold_ne masks _ i 0 4 (by omega) fun m _ => ?_
        rcases contribPixel_class m (levelAt masks m i) with h0 | ⟨_, h⟩ | ⟨_, h⟩ | ⟨rfl, h⟩ | ⟨_, h⟩
        · rw [contribAt]; omega
        · rw [contribAt]; omega
        · rw [contribAt]; rcases h with h | h <;> omega
        · rw [contribAt]
          simp [levelAt, hnone, contribPixel]
        · rw [contribAt]; omega
      · rw [List.getD_eq_default _ _ (by omega)]; omega
    · rcases Nat.lt_or_ge i n with hi | hi
      · rw [hpix i hi]
        refine overlayFold_ne masks _ i 0 5 (by omega) fun m _ => ?_
        rcases contribPixel_class m (levelAt masks m i) with h0 | ⟨_, h⟩ | ⟨_, h⟩ | ⟨_, h⟩ | ⟨rfl, h⟩
        · rw [contribAt]; omega
        · rw [contribAt]; omega
        · rw [contribAt]; rcases h with h | h <;> omega
        · rw [contribAt]; omega
        · rw [contribAt]
          simp [levelAt, hnone, contribPixel]
      · rw [List.getD_eq_default _ _ (by omega)]; omega

/-- C3 counterexample: the claim says a raw `axonmyelin` pixel of 190 raises
`InvalidIntensity`; the code performs no intensity validation — the run
completes normally, rounding 190/127 to level 1 and fusing it as myelin. -/
theorem c3_counterexample :
    npRound 190 127 = 1 ∧ process_labels masksC3 none = Except.ok (some [2]) := by
  decide

/-- C3 (amended): rescaling performs no validation at all — whenever the
mandatory masks are present the fusion run completes without any error, for
arbitrary pixel intensities; a raw `axonmyelin` intensity of 190 rescales to
level 1 (myelin). -/
theorem c3_no_intensity_validation (masks : MaskName → Option Raster) (n : Nat)
    (hpres : PresentOrOptional masks n MASKS_TO_LOAD) :
    (∃ r, process_labels masks none = Except.ok (some r)) ∧ npRound 190 127 = 1 := by
  refine ⟨?_, by decide⟩
  obtain ⟨u, hu, hulen⟩ :=
    (hpres .uaxon (List.mem_cons_self ..)).resolve_right (by simp)
  have htail : PresentOrOptional masks n [.axonmyelin, .nuclei, .process] := by
    intro m hm
    refine hpres m ?_
    simp only [MASKS_TO_LOAD]
    exact List.mem_cons_of_mem _ hm
  obtain ⟨r, hr, -, -⟩ :=
    processLabelsOrder_overlay masks n [.axonmyelin, .nuclei, .process] htail
      (rescale 255 u) (by rw [rescale_length, hulen])
  refine ⟨r, ?_⟩
  rw [show process_labels masks none =
    processLabelsOrder masks [.axonmyelin, .nuclei, .process] (some (rescale 255 u)) from
    processLabelsOrder_none_cons masks u _ hu]
  exact hr

/-- C3 witness. -/
theorem c3_witness :
    (∃ r, process_labels masksC3 none = Except.ok (some r)) ∧ npRound 190 127 = 1 :=
  c3_no_intensity_validation masksC3 1 (by
    intro m hm
    cases m
    · exact Or.inl ⟨[0], rfl, rfl⟩
    · exact Or.inl ⟨[190], rfl, rfl⟩
    · exact Or.inr ⟨rfl, by simp, by simp⟩
    · exact Or.inr ⟨rfl, by simp, by simp⟩)

/-- C4: on the spec's concrete 10×10 scenario the fused raster has exactly 5
pixels equal to 2, 3 equal to 3, 7 equal to 1 and the remaining 85 equal
to 0. -/
theorem c4_concrete_scenario :
    process_labels masksC4 none = Except.ok (some rC4) ∧
    rC4.count 2 = 5 ∧ rC4.count 3 = 3 ∧ rC4.count 1 = 7 ∧ rC4.count 0 = 85 ∧
    rC4.length = 100 := by decide

/-- C8: fusion is deterministic — two runs of the per-sample loop on identical
input masks, each starting with the output artifact absent, return the same
result. -/
theorem c8_deterministic (masks : MaskName → Option Raster)
    (out₁ out₂ : Except (FuseError × Option Raster) (Option Raster))
    (h₁ : process_labels masks none = out₁) (h₂ : process_labels masks none = out₂) :
    out₁ = out₂ :=
  h₁.symm.trans h₂

/-- C8 witness. -/
theorem c8_witness :
    (Except.ok (some rC4) : Except (FuseError × Option Raster) (Option Raster)) =
      Except.ok (some rC4) :=
  c8_deterministic masksC4 _ _ (by decide) (by decide)

/-- C9: with no artifact on disk the `uaxon` step initializes it to the
rescaled mask; with a pre-existing artifact the `uaxon` step overlays onto it:
pixels at rescaled level 1 become 1 and all other pixels keep their stale
pre-existing value. -/
theorem c9_stale_artifact (masks : MaskName → Option Raster) (u e : Raster)
    (hu : masks .uaxon = some u) (hlen : u.length = e.length) :
    processMask masks none .uaxon = Except.ok (some (rescale 255 u)) ∧
    ∃ r, processMask masks (some e) .uaxon = Except.ok (some r) ∧
      r.length = e.length ∧
      ∀ i, i < e.length →
        r.getD i 0 = if npRound (u.getD i 0) 255 = 1 then CLASS_MAPPING .uaxon
          else e.getD i 0 := by
  constructor
  · simp [processMask, hu, rescalingFactor]
  · have hl2 : (rescale (rescalingFactor .uaxon) u).length = e.length := by
      rw [rescale_length]; exact hlen
    refine ⟨mergeMask .uaxon e (rescale (rescalingFactor .uaxon) u),
      processMask_present masks e u .uaxon hu, mergeMask_length _ _ _ hl2, fun i hi => ?_⟩
    have hiu : i < u.length := by rw [hlen]; exact hi
    rw [mergeMask_getD _ _ _ hl2 i hi, rescale_getD _ _ _ hiu,
      show rescalingFactor .uaxon = 255 from rfl]
    simp only [contribPixel, CLASS_MAPPING, maskLabelClass]
    split_ifs <;> simp_all

theorem masksC4_present : PresentOrOptional masksC4 100 MASKS_TO_LOAD := by
  intro m hm
  cases m
  · exact Or.inl ⟨uaxonC4, rfl, by simp [uaxonC4]⟩
  · exact Or.inl ⟨axonmyelinC4, rfl, by simp [axonmyelinC4]⟩
  · exact Or.inr ⟨rfl, by simp, by simp⟩
  · exact Or.inr ⟨rfl, by simp, by simp⟩

theorem masksC4_eightBit : ∀ m raw, masksC4 m = some raw → EightBit raw := by
  intro m raw hm
  cases m <;> simp only [masksC4] at hm
  · rw [← Option.some_inj.mp hm]
    unfold EightBit
    decide
  · rw [← Option.some_inj.mp hm]
    unfold EightBit
    decide
  · cases hm
  · cases hm

/-- C9 witness. -/
theorem c9_witness :
    processMask masksC2 none .uaxon = Except.ok (some (rescale 255 [255, 0])) ∧
    ∃ r, processMask masksC2 (some [9, 9]) .uaxon = Except.ok (some r) ∧
      r.length = ([9, 9] : Raster).length ∧
      ∀ i, i < ([9, 9] : Raster).length →
        r.getD i 0 = if npRound (List.getD [255, 0] i 0) 255 = 1 then CLASS_MAPPING .uaxon
          else List.getD [9, 9] i 0 :=
  c9_stale_artifact masksC2 [255, 0] [9, 9] rfl rfl

/-- C5: for every completing fusion run on 8-bit input masks, every pixel of
the final raster is an element of {0, 1, 2, 3, 4, 5}. -/
theorem c5_range_invariant (masks : MaskName → Option Raster) (n : Nat)
    (hpres : PresentOrOptional masks n MASKS_TO_LOAD)
    (h8 : ∀ m raw, masks m = some raw → EightBit raw) :
    ∃ r, process_labels masks none = Except.ok (some r) ∧
      ∀ v ∈ r, v ∈ ([0, 1, 2, 3, 4, 5] : List Nat) := by
  obtain ⟨r, hr, hlen, hpix⟩ := process_labels_overlay masks n hpres (h8 .uaxon)
  refine ⟨r, hr, fun v hv => ?_⟩
  obtain ⟨i, hi, hvi⟩ := List.mem_iff_getElem.mp hv
  have h5 : r.getD i 0 ≤ 5 := by
    rw [hpix i (hlen ▸ hi)]
    exact overlayFold_le _ _ _ _ (by omega)
  rw [List.getD_eq_getElem _ _ hi, hvi] at h5
  have hmem : ∀ x, x < 6 → x ∈ ([0, 1, 2, 3, 4, 5] : List Nat) := by decide
  exact hmem v (by omega)

/-- C5 witness. -/
theorem c5_witness :
    ∃ r, process_labels masksC4 none = Except.ok (some r) ∧
      ∀ v ∈ r, v ∈ ([0, 1, 2, 3, 4, 5] : List Nat) :=
  c5_range_invariant masksC4 100 masksC4_present masksC4_eightBit

/-- C6: on a raw mask whose intensities are exact multiples of the class
divisor (127 for `axonmyelin`, 255 otherwise) and fit in 8 bits, rescaling is
exact division and lands in {0,1} (binary classes) resp. {0,1,2}
(`axonmyelin`); the older script's divisor table agrees. -/
theorem c6_rescale_exact (m : MaskName) (raw : Raster)
    (h : ∀ v ∈ raw, rescalingFactor m ∣ v ∧ v ≤ 255) :
    rescale (rescalingFactor m) raw = raw.map (fun v => v / rescalingFactor m) ∧
    (∀ w ∈ rescale (rescalingFactor m) raw,
      w ∈ (if m = .axonmyelin then [0, 1, 2] else [0, 1] : List Nat)) ∧
    rescalingFactor .axonmyelin = 127 ∧
    (∀ m' : MaskName, m' ≠ .axonmyelin → rescalingFactor m' = 255) ∧
    (∀ t ∈ (["axonmyelin", "myelin", "uaxon"] : List String),
      label_type_to_divisor t = some (if t = "axonmyelin" then 127 else 255)) := by
  have hdpos : 0 < rescalingFactor m := by cases m <;> simp [rescalingFactor]
  have hmap : rescale (rescalingFactor m) raw = raw.map fun v => v / rescalingFactor m := by
    rw [rescale]
    exact List.map_congr_left fun v hv => npRound_of_dvd v _ hdpos (h v hv).1
  refine ⟨hmap, fun w hw => ?_, rfl, fun m' hm' => ?_, by decide⟩
  · rw [hmap] at hw
    obtain ⟨v, hv, rfl⟩ := List.mem_map.mp hw
    have hdivle : v / rescalingFactor m ≤ 255 / rescalingFactor m :=
      Nat.div_le_div_right (h v hv).2
    cases m
    case axonmyelin =>
      simp only [rescalingFactor] at hdivle
      have hq : (255 : Nat) / 127 = 2 := by norm_num
      simp only [rescalingFactor]
      simp
      omega
    all_goals
      simp only [rescalingFactor] at hdivle
      have hq : (255 : Nat) / 255 = 1 := by norm_num
      simp only [rescalingFactor]
      simp
      omega
  · cases m' <;> simp_all [rescalingFactor]

/-- C6 witness. -/
theorem c6_witness :
    rescale (rescalingFactor .axonmyelin) [0, 127, 254] =
      List.map (fun v => v / rescalingFactor .axonmyelin) [0, 127, 254] ∧
    (∀ w ∈ rescale (rescalingFactor .axonmyelin) [0, 127, 254],
      w ∈ (if MaskName.axonmyelin = .axonmyelin then [0, 1, 2] else [0, 1] : List Nat)) ∧
    rescalingFactor .axonmyelin = 127 ∧
    (∀ m' : MaskName, m' ≠ .axonmyelin → rescalingFactor m' = 255) ∧
    (∀ t ∈ (["axonmyelin", "myelin", "uaxon"] : List String),
      label_type_to_divisor t = some (if t = "axonmyelin" then 127 else 255)) :=
  c6_rescale_exact .axonmyelin [0, 127, 254] (by decide)

/-- C10: rounding any 8-bit intensity by 255 lands in {0,1} and by 127 in
{0,1,2}, with no half-way tie for either divisor; fusion therefore completes
without intensity validation and the final raster stays within 0..5. -/
theorem c10_rounding_total (masks : MaskName → Option Raster) (n : Nat)
    (hpres : PresentOrOptional masks n MASKS_TO_LOAD)
    (h8 : ∀ m raw, masks m = some raw → EightBit raw) :
    (∀ v, v ≤ 255 →
      (npRound v 255 = 0 ∨ npRound v 255 = 1) ∧
      (npRound v 127 = 0 ∨ npRound v 127 = 1 ∨ npRound v 127 = 2) ∧
      2 * (v % 255) ≠ 255 ∧ 2 * (v % 127) ≠ 127) ∧
    ∃ r, process_labels masks none = Except.ok (some r) ∧ r.length = n ∧
      ∀ i, r.getD i 0 ≤ 5 := by
  constructor
  · intro v hv
    refine ⟨npRound_255_mem v (by omega), npRound_127_mem v (by omega), ?_, ?_⟩ <;> omega
  · obtain ⟨r, hr, hlen, hpix⟩ := process_labels_overlay masks n hpres (h8 .uaxon)
    refine ⟨r, hr, hlen, fun i => ?_⟩
    rcases Nat.lt_or_ge i n with hi | hi
    · rw [hpix i hi]
      exact overlayFold_le _ _ _ _ (by omega)
    · rw [List.getD_eq_default _ _ (by omega)]
      omega

/-- C10 witness. -/
theorem c10_witness :
    (∀ v, v ≤ 255 →
      (npRound v 255 = 0 ∨ npRound v 255 = 1) ∧
      (npRound v 127 = 0 ∨ npRound v 127 = 1 ∨ npRound v 127 = 2) ∧
      2 * (v % 255) ≠ 255 ∧ 2 * (v % 127) ≠ 127) ∧
    ∃ r, process_labels masksC4 none = Except.ok (some r) ∧ r.length = 100 ∧
      ∀ i, r.getD i 0 ≤ 5 :=
  c10_rounding_total masksC4 100 masksC4_present masksC4_eightBit

/-- C1: on a fresh fusion run with 8-bit masks, after every prefix of the
processing order every pixel of the accumulated raster equals the output id of
the last-processed-in-rank-order class whose rescaled mask was non-zero there,
or 0 if no processed mask claimed it; in particular, on any pixel claimed by
two classes the final raster never holds the earlier-ranked class's output
id. -/
theorem c1_last_writer_invariant (masks : MaskName → Option Raster) (n : Nat)
    (hpres : PresentOrOptional masks n MASKS_TO_LOAD)
    (h8 : ∀ m raw, masks m = some raw → EightBit raw) :
    (∀ k, 1 ≤ k → k ≤ 4 →
      ∃ r, processLabelsOrder masks (MASKS_TO_LOAD.take k) none = Except.ok (some r) ∧
        r.length = n ∧
        ∀ i, i < n →
          r.getD i 0 = lastClaimPixel (presentClaims masks (MASKS_TO_LOAD.take k) i)) ∧
    (∀ r, process_labels masks none = Except.ok (some r) →
      ∀ i, i < n → ∀ m₁ m₂ : MaskName, rank m₁ < rank m₂ →
        levelAt masks m₁ i ≠ 0 → levelAt masks m₂ i ≠ 0 →
          r.getD i 0 ≠ claimValue m₁ (levelAt masks m₁ i)) := by
  have hp : ∀ rest : List MaskName, (∀ x ∈ rest, x ∈ MASKS_TO_LOAD) →
      PresentOrOptional masks n (.uaxon :: rest) := by
    intro rest hrest m hm
    rcases List.mem_cons.mp hm with rfl | hmr
    · exact hpres _ (by simp [MASKS_TO_LOAD])
    · exact hpres m (hrest m hmr)
  constructor
  · intro k hk1 hk4
    interval_cases k
    · exact fresh_run_lastClaim masks n [] (hp [] (by simp)) h8
    · exact fresh_run_lastClaim masks n [.axonmyelin]
        (hp _ (by intro x hx; fin_cases hx <;> simp [MASKS_TO_LOAD])) h8
    · exact fresh_run_lastClaim masks n [.axonmyelin, .nuclei]
        (hp _ (by intro x hx; fin_cases hx <;> simp [MASKS_TO_LOAD])) h8
    · exact fresh_run_lastClaim masks n [.axonmyelin, .nuclei, .process]
        (hp _ (by intro x hx; fin_cases hx <;> simp [MASKS_TO_LOAD])) h8
  · intro r hr i hi m₁ m₂ hrank h₁ h₂
    obtain ⟨r', hr', hlen', hpix'⟩ := process_labels_overlay masks n hpres (h8 .uaxon)
    rw [hr] at hr'
    simp only [Except.ok.injEq, Option.some.injEq] at hr'
    subst hr'
    rw [hpix' i hi]
    exact overlayFold_ne_earlier masks i (fun m => levelAt_bounds masks m i (h8 m))
      m₁ m₂ hrank h₁ h₂

/-- C1 witness. -/
theorem c1_witness :
    (∀ k, 1 ≤ k → k ≤ 4 →
      ∃ r, processLabelsOrder masksC4 (MASKS_TO_LOAD.take k) none = Except.ok (some r) ∧
        r.length = 100 ∧
        ∀ i, i < 100 →
          r.getD i 0 = lastClaimPixel (presentClaims masksC4 (MASKS_TO_LOAD.take k) i)) ∧
    (∀ r, process_labels masksC4 none = Except.ok (some r) →
      ∀ i, i < 100 → ∀ m₁ m₂ : MaskName, rank m₁ < rank m₂ →
        levelAt masksC4 m₁ i ≠ 0 → levelAt masksC4 m₂ i ≠ 0 →
          r.getD i 0 ≠ claimValue m₁ (levelAt masksC4 m₁ i)) :=
  c1_last_writer_invariant masksC4 100 masksC4_present masksC4_eightBit

/-- C7: when no two classes' rescaled masks share a non-background pixel, the
fused raster is the union of the classes' contributions and is the same for
every processing order (and equals the fresh run of the hard-coded order);
in general fusion is not order-independent: on an overlapping one-pixel
sample, swapping `uaxon` and `axonmyelin` changes the result. -/
theorem c7_disjoint_union_order (masks : MaskName → Option Raster) (n : Nat)
    (hpres : ∀ m : MaskName, ∃ raw, masks m = some raw ∧ raw.length = n)
    (h8 : ∀ m raw, masks m = some raw → EightBit raw)
    (hdisj : ∀ i : Nat, ∀ m₁ m₂ : MaskName, m₁ ≠ m₂ →
      levelAt masks m₁ i = 0 ∨ levelAt masks m₂ i = 0)
    (ord : List MaskName) (hord : ord.Perm MASKS_TO_LOAD) :
    (∃ r, processLabelsOrder masks ord (some (List.replicate n 0)) = Except.ok (some r) ∧
      r.length = n ∧
      (∀ i, i < n → ∀ m, levelAt masks m i ≠ 0 → r.getD i 0 = contribAt masks m i) ∧
      (∀ i, i < n → (∀ m : MaskName, levelAt masks m i = 0) → r.getD i 0 = 0) ∧
      (∀ ord₂ : List MaskName, ord₂.Perm MASKS_TO_LOAD →
        processLabelsOrder masks ord₂ (some (List.replicate n 0)) =
          processLabelsOrder masks ord (some (List.replicate n 0))) ∧
      process_labels masks none =
        processLabelsOrder masks ord (some (List.replicate n 0))) ∧
    processLabelsOrder masksC7 [.uaxon, .axonmyelin, .nuclei, .process] (some [0]) ≠
      processLabelsOrder masksC7 [.axonmyelin, .uaxon, .nuclei, .process] (some [0]) := by
  have hmem4 : ∀ m : MaskName, m ∈ MASKS_TO_LOAD := by
    intro m; cases m <;> simp [MASKS_TO_LOAD]
  have hcdisj : ∀ i : Nat, ∀ m₁ m₂ : MaskName, m₁ ≠ m₂ →
      contribAt masks m₁ i = 0 ∨ contribAt masks m₂ i = 0 := by
    intro i m₁ m₂ hne
    rcases hdisj i m₁ m₂ hne with h | h
    · left; rw [contribAt, h, contribPixel_zero]
    · right; rw [contribAt, h, contribPixel_zero]
  have hlvlb : ∀ i m, levelAt masks m i ≤ 2 ∧ (m ≠ .axonmyelin → levelAt masks m i ≤ 1) :=
    fun i m => levelAt_bounds masks m i (h8 m)
  have hciff : ∀ i m, levelAt masks m i ≠ 0 → contribAt masks m i ≠ 0 := by
    intro i m hlvl
    rw [contribAt_claim masks m i (hlvlb i m).1 (hlvlb i m).2, if_neg hlvl]
    exact claimValue_ne_zero m _
  have hc0 : ∀ i m, levelAt masks m i = 0 → contribAt masks m i = 0 := by
    intro i m h; rw [contribAt, h, contribPixel_zero]
  have hrun : ∀ ord' : List MaskName, ∃ r,
      processLabelsOrder masks ord' (some (List.replicate n 0)) = Except.ok (some r) ∧
      r.length = n ∧ ∀ i, i < n → r.getD i 0 = overlayFold masks ord' i 0 := by
    intro ord'
    obtain ⟨r, hr, hlen, hpix⟩ := processLabelsOrder_overlay masks n ord'
      (fun m _ => Or.inl (hpres m)) (List.replicate n 0) (by simp)
    exact ⟨r, hr, hlen, fun i hi => by rw [hpix i hi, getD_replicate_zero]⟩
  have hfold : ∀ ord' : List MaskName, ord'.Perm MASKS_TO_LOAD → ∀ i : Nat,
      overlayFold masks ord' i 0 = overlayFold masks MASKS_TO_LOAD i 0 := by
    intro ord' hp' i
    by_cases hex : ∃ m : MaskName, contribAt masks m i ≠ 0
    · obtain ⟨m, hm⟩ := hex
      rw [overlayFold_disjoint masks ord' i (hp'.symm.nodup (by decide)) (hcdisj i) m
          (hp'.mem_iff.mpr (hmem4 m)) hm,
        overlayFold_disjoint masks MASKS_TO_LOAD i (by decide) (hcdisj i) m (hmem4 m) hm]
    · push_neg at hex
      rw [overlayFold_const masks ord' i 0 (fun m _ => hex m),
        overlayFold_const masks MASKS_TO_LOAD i 0 (fun m _ => hex m)]
  obtain ⟨r, hr, hlen, hpix⟩ := hrun ord
  constructor
  · refine ⟨r, hr, hlen, ?_, ?_, ?_, ?_⟩
    · intro i hi m hm
      rw [hpix i hi]
      exact overlayFold_disjoint masks ord i (hord.symm.nodup (by decide)) (hcdisj i) m
        (hord.mem_iff.mpr (hmem4 m)) (hciff i m hm)
    · intro i hi hall
      rw [hpix i hi]
      exact overlayFold_const masks ord i 0 (fun m _ => hc0 i m (hall m))
    · intro ord₂ hord₂
      obtain ⟨r₂, hr₂, hlen₂, hpix₂⟩ := hrun ord₂
      have heq : r₂ = r := by
        apply List.ext_getElem (by omega)
        intro j hj₁ hj₂
        have h1 : r₂.getD j 0 = r.getD j 0 := by
          rw [hpix₂ j (by omega), hpix j (by omega), hfold ord₂ hord₂ j, hfold ord hord j]
        rwa [List.getD_eq_getElem _ _ hj₁, List.getD_eq_getElem _ _ hj₂] at h1
      rw [hr₂, hr, heq]
    · obtain ⟨rf, hrf, hlenf, hpixf⟩ := process_labels_overlay masks n
        (fun m _ => Or.inl (hpres m)) (h8 .uaxon)
      have heq : rf = r := by
        apply List.ext_getElem (by omega)
        intro j hj₁ hj₂
        have h1 : rf.getD j 0 = r.getD j 0 := by
          rw [hpixf j (by omega), hpix j (by omega), hfold ord hord j]
        rwa [List.getD_eq_getElem _ _ hj₁, List.getD_eq_getElem _ _ hj₂] at h1
      rw [hrf, hr, heq]
  · decide

theorem masksDisjoint_present :
    ∀ m : MaskName, ∃ raw, masksDisjoint m = some raw ∧ raw.length = 4 := by
  intro m
  cases m
  · exact ⟨[255, 0, 0, 0], rfl, rfl⟩
  · exact ⟨[0, 254, 0, 0], rfl, rfl⟩
  · exact ⟨[0, 0, 255, 0], rfl, rfl⟩
  · exact ⟨[0, 0, 0, 255], rfl, rfl⟩

theorem masksDisjoint_eightBit : ∀ m raw, masksDisjoint m = some raw → EightBit raw := by
  intro m raw hm
  cases m <;> rw [← Option.some_inj.mp hm] <;> unfold EightBit <;> decide

theorem masksDisjoint_disjoint : ∀ i : Nat, ∀ m₁ m₂ : MaskName, m₁ ≠ m₂ →
    levelAt masksDisjoint m₁ i = 0 ∨ levelAt masksDisjoint m₂ i = 0 := by
  intro i m₁ m₂ hne
  rcases Nat.lt_or_ge i 4 with hi | hi
  · interval_cases i <;> cases m₁ <;> cases m₂ <;>
      first
        | exact absurd rfl hne
        | decide
  · left
    apply levelAt_out_of_range
    intro raw hraw
    cases m₁ <;> rw [← Option.some_inj.mp hraw] <;> simp <;> omega

/-- C7 witness. -/
theorem c7_witness :
    (∃ r, processLabelsOrder masksDisjoint MASKS_TO_LOAD (some (List.replicate 4 0)) =
        Except.ok (some r) ∧
      r.length = 4 ∧
      (∀ i, i < 4 → ∀ m, levelAt masksDisjoint m i ≠ 0 →
        r.getD i 0 = contribAt masksDisjoint m i) ∧
      (∀ i, i < 4 → (∀ m : MaskName, levelAt masksDisjoint m i = 0) → r.getD i 0 = 0) ∧
      (∀ ord₂ : List MaskName, ord₂.Perm MASKS_TO_LOAD →
        processLabelsOrder masksDisjoint ord₂ (some (List.replicate 4 0)) =
          processLabelsOrder masksDisjoint MASKS_TO_LOAD (some (List.replicate 4 0))) ∧
      process_labels masksDisjoint none =
        processLabelsOrder masksDisjoint MASKS_TO_LOAD (some (List.replicate 4 0))) ∧
    processLabelsOrder masksC7 [.uaxon, .axonmyelin, .nuclei, .process] (some [0]) ≠
      processLabelsOrder masksC7 [.axonmyelin, .uaxon, .nuclei, .process] (some [0]) :=
  c7_disjoint_union_order masksDisjoint 4 masksDisjoint_present masksDisjoint_eightBit
    masksDisjoint_disjoint MASKS_TO_LOAD (List.Perm.refl _)

end StanfordPipeline
